import Mathlib

/-!
Verification of the hand-rolled evaluation-metric and feature-hashing logic of
the spam-classification workshop notebooks.

Embedding conventions:
* Python floats are modelled by `ℚ` wherever every operation stays finite, and
  by `PFloat` (an explicit NaN / infinity / finite-rational model) where the
  source can divide floating-point zero by zero under numpy semantics, which
  yields NaN instead of raising.
* Pure-Python float division (as in `f1_score` / `fbeta_score` /
  `model_accuracy`) raises `ZeroDivisionError` on a zero divisor, so functions
  whose divisor can be zero are embedded as `Option ℚ`, `none` marking the
  raised error.
* A pandas dataframe with columns (label, text) is a `List (String × String)`,
  first component the label, second the text.
* Python's built-in `hash` is an arbitrary parameter `h : String → ℤ`;
  `x % n` on Python ints with `n > 0` agrees with Lean's `Int.emod`.
* The counts that the metric functions wrap in `float(len([...]))` are kept as
  `ℕ` and cast to `ℚ` at their use sites; the values are identical.
-/

/-- `float(len([v for v in actual_values if v == positive_label]))` in
`f1_score` / `fbeta_score` (the cast to `ℚ` happens at the use site). -/
def actual_positives (vals : List String) (positive_label : String) : ℕ :=
  vals.countP (fun v => v == positive_label)

/-- `float(len([t for t in zip(actual_values, predicted_values) if t[0] == t[1]
== positive_label]))` in `f1_score` / `fbeta_score`. -/
def true_positives (actual_values predicted_values : List String)
    (positive_label : String) : ℕ :=
  (actual_values.zip predicted_values).countP
    (fun t => t.1 == positive_label && t.2 == positive_label)

/-- `float(len([v for v in predicted_values if v == positive_label]))` in
`f1_score` / `fbeta_score`. -/
def predicted_positives (vals : List String) (positive_label : String) : ℕ :=
  vals.countP (fun v => v == positive_label)

/-- `f1_score` from the evaluation notebook.  Each Python float division
raises `ZeroDivisionError` on a zero divisor; a raised error is `none`.
(The source's local variable `recall` is named `rcl` here because `recall` is
a reserved word in this Lean environment.) -/
def f1_score (actual_values predicted_values : List String)
    (positive_label : String := "spam") : Option ℚ :=
  let ap : ℚ := (actual_positives actual_values positive_label : ℚ)
  let tp : ℚ := (true_positives actual_values predicted_values positive_label : ℚ)
  let pp : ℚ := (predicted_positives predicted_values positive_label : ℚ)
  if pp = 0 then none
  else if ap = 0 then none
  else
    let precision := tp / pp
    let rcl := tp / ap
    if precision + rcl = 0 then none
    else some (2 * ((precision * rcl) / (precision + rcl)))

/-- `fbeta_score` from the evaluation notebook, with the same
division-by-zero behaviour (`none` marks a raised `ZeroDivisionError`). -/
def fbeta_score (actual_values predicted_values : List String) (beta : ℚ)
    (positive_label : String := "spam") : Option ℚ :=
  let ap : ℚ := (actual_positives actual_values positive_label : ℚ)
  let tp : ℚ := (true_positives actual_values predicted_values positive_label : ℚ)
  let pp : ℚ := (predicted_positives predicted_values positive_label : ℚ)
  if pp = 0 then none
  else if ap = 0 then none
  else
    let precision := tp / pp
    let rcl := tp / ap
    if beta * beta * precision + rcl = 0 then none
    else some ((1 + beta * beta) * ((precision * rcl) / (beta * beta * precision + rcl)))

/-- Modelled from the spec: the four-entry confusion tally
(`binary_confusion_matrix` lives in the external `mlworkflows` package, not in
this repository).  "Compute the four tally counts by pairwise comparison"
relative to a chosen positive label: true positive (both sides positive),
false negative (actual positive, predicted not), false positive (predicted
positive, actual not), true negative (neither side positive). -/
def confusionTally (actual_values predicted_values : List String)
    (positive_label : String) : ℕ × ℕ × ℕ × ℕ :=
  let pairs := actual_values.zip predicted_values
  (pairs.countP (fun t => t.1 == positive_label && t.2 == positive_label),
   pairs.countP (fun t => t.1 == positive_label && !(t.2 == positive_label)),
   pairs.countP (fun t => !(t.1 == positive_label) && t.2 == positive_label),
   pairs.countP (fun t => !(t.1 == positive_label) && !(t.2 == positive_label)))

/-- The four labels observed in the worked example of the evaluation notebook. -/
def scenarioActual : List String := ["spam", "spam", "legitimate", "spam"]

/-- The four predictions of the worked example of the evaluation notebook. -/
def scenarioPredicted : List String := ["spam", "legitimate", "legitimate", "spam"]

/-- C3: for every pair of equal-length label sequences and every positive label
on which both functions are defined (predicted positives, actual positives and
precision + recall all nonzero), `f1_score` coincides with `fbeta_score` at
β = 1: F1 is exactly the β = 1 instance of the general F-beta formula. -/
theorem f1_score_eq_fbeta_score_one (actual_values predicted_values : List String)
    (positive_label : String)
    (hlen : actual_values.length = predicted_values.length)
    (hpp : predicted_positives predicted_values positive_label ≠ 0)
    (hap : actual_positives actual_values positive_label ≠ 0)
    (hpr : (true_positives actual_values predicted_values positive_label : ℚ) /
        (predicted_positives predicted_values positive_label : ℚ) +
        (true_positives actual_values predicted_values positive_label : ℚ) /
        (actual_positives actual_values positive_label : ℚ) ≠ 0) :
    f1_score actual_values predicted_values positive_label
      = fbeta_score actual_values predicted_values 1 positive_label := by
  have hppQ : (predicted_positives predicted_values positive_label : ℚ) ≠ 0 := by
    exact_mod_cast hpp
  have hapQ : (actual_positives actual_values positive_label : ℚ) ≠ 0 := by
    exact_mod_cast hap
  simp only [f1_score, fbeta_score, if_neg hppQ, if_neg hapQ, one_mul, if_neg hpr]
  norm_num

/-- Witness for C3 on the worked example of the notebook. -/
theorem f1_score_eq_fbeta_score_one_witness :
    f1_score scenarioActual scenarioPredicted "spam"
      = fbeta_score scenarioActual scenarioPredicted 1 "spam" :=
  f1_score_eq_fbeta_score_one scenarioActual scenarioPredicted "spam"
    (by decide) (by decide) (by decide)
    (by
      simp [true_positives, predicted_positives, actual_positives,
        scenarioActual, scenarioPredicted, List.countP, List.countP.go, List.zip]
      norm_num)

/-- C4: whenever the count of predicted positives or the count of actual
positives is zero, both `f1_score` and `fbeta_score` (at every β) raise a
division-by-zero error, surfaced to the caller as `none`. -/
theorem f1_fbeta_division_by_zero (actual_values predicted_values : List String)
    (positive_label : String)
    (hlen : actual_values.length = predicted_values.length)
    (h : predicted_positives predicted_values positive_label = 0 ∨
      actual_positives actual_values positive_label = 0) :
    f1_score actual_values predicted_values positive_label = none ∧
      ∀ beta : ℚ, fbeta_score actual_values predicted_values beta positive_label = none := by
  rcases h with h1 | h1
  · have hQ : (predicted_positives predicted_values positive_label : ℚ) = 0 := by
      exact_mod_cast h1
    simp [f1_score, fbeta_score, hQ]
  · have hQ : (actual_positives actual_values positive_label : ℚ) = 0 := by
      exact_mod_cast h1
    constructor
    · by_cases h2 : (predicted_positives predicted_values positive_label : ℚ) = 0 <;>
        simp [f1_score, hQ, h2]
    · intro b
      by_cases h2 : (predicted_positives predicted_values positive_label : ℚ) = 0 <;>
        simp [fbeta_score, hQ, h2]

/-- Witness for C4: nothing is predicted "spam", so both metrics fail. -/
theorem f1_fbeta_division_by_zero_witness :
    f1_score ["spam", "legitimate"] ["legitimate", "legitimate"] "spam" = none ∧
      ∀ beta : ℚ, fbeta_score ["spam", "legitimate"] ["legitimate", "legitimate"] beta "spam" = none :=
  f1_fbeta_division_by_zero ["spam", "legitimate"] ["legitimate", "legitimate"] "spam"
    (by decide) (Or.inl (by decide))

/-- C6: on the worked example (actual `scenarioActual`, predicted
`scenarioPredicted`, positive label "spam") the tallies are
true positive 2, false negative 1, false positive 0, true negative 1,
precision (tp/pp) is 1, recall (tp/ap) is 2/3 and the F1 score is 0.8 = 4/5. -/
theorem scenario_tallies_and_f1 :
    confusionTally scenarioActual scenarioPredicted "spam" = (2, 1, 0, 1) ∧
      (true_positives scenarioActual scenarioPredicted "spam" : ℚ) /
        (predicted_positives scenarioPredicted "spam" : ℚ) = 1 ∧
      (true_positives scenarioActual scenarioPredicted "spam" : ℚ) /
        (actual_positives scenarioActual "spam" : ℚ) = 2 / 3 ∧
      f1_score scenarioActual scenarioPredicted "spam" = some (4 / 5) := by
  refine ⟨by decide, ?_, ?_, ?_⟩ <;>
    · simp [f1_score, true_positives, predicted_positives, actual_positives,
        scenarioActual, scenarioPredicted, List.countP, List.countP.go, List.zip]
      try norm_num

/-- `model_accuracy` from the evaluation notebook: walk the dataframe counting
rows whose label matches the model's prediction and rows whose label does not,
return 100 on an empty frame, and otherwise
`float(correct) / float(correct + incorrect) * 100`. -/
def model_accuracy (predict : String → String) (df : List (String × String)) : ℚ :=
  let correct : ℕ := df.countP (fun row => row.1 == predict row.2)
  let incorrect : ℕ := df.countP (fun row => !(row.1 == predict row.2))
  if correct + incorrect = 0 then 100
  else (correct : ℚ) / ((correct + incorrect : ℕ) : ℚ) * 100

/-- The classifier of the accuracy scenario: predicts every input as "spam". -/
def allSpamModel : String → String := fun _ => "spam"

/-- The accuracy scenario's evaluation set: 18000 spam and 2000 legitimate
documents. -/
def scenarioBigDf : List (String × String) :=
  List.replicate 18000 ("spam", "spam text") ++
    List.replicate 2000 ("legitimate", "legitimate text")

/-- Counting matches of `p` and of its negation accounts for every element. -/
theorem countP_add_countP_not (p : α → Bool) (l : List α) :
    l.countP p + l.countP (fun a => !p a) = l.length := by
  induction l with
  | nil => simp
  | cons a t ih => by_cases h : p a <;> simp [List.countP_cons, h] <;> omega

/-- Over binary labels, the rows where the label equals the prediction are
exactly the true positives plus the true negatives. -/
theorem countP_correct_split (predict : String → String) (pos neg : String)
    (hpn : pos ≠ neg) (df : List (String × String))
    (hbin : ∀ r ∈ df, (r.1 = pos ∨ r.1 = neg) ∧ (predict r.2 = pos ∨ predict r.2 = neg)) :
    df.countP (fun r => r.1 == predict r.2)
      = df.countP (fun r => r.1 == pos && predict r.2 == pos)
        + df.countP (fun r => !(r.1 == pos) && !(predict r.2 == pos)) := by
  induction df with
  | nil => simp
  | cons r t ih =>
      have hr := hbin r (List.mem_cons_self r t)
      have ht := ih (fun x hx => hbin x (List.mem_cons_of_mem r hx))
      have hnp : neg ≠ pos := hpn.symm
      rcases hr with ⟨h1 | h1, h2 | h2⟩ <;>
        simp [List.countP_cons, h1, h2, hpn, hnp, ht] <;> omega

/-- On the accuracy scenario the all-spam classifier scores 90. -/
theorem model_accuracy_scenario_value :
    model_accuracy allSpamModel scenarioBigDf = 90 := by
  have hc : scenarioBigDf.countP (fun row => row.1 == allSpamModel row.2) = 18000 := by
    rw [scenarioBigDf, List.countP_append, List.countP_replicate, List.countP_replicate]
    norm_num [allSpamModel]
    decide
  have hi : scenarioBigDf.countP (fun row => !(row.1 == allSpamModel row.2)) = 2000 := by
    rw [scenarioBigDf, List.countP_append, List.countP_replicate, List.countP_replicate]
    norm_num [allSpamModel]
    decide
  rw [model_accuracy]
  simp only [hc, hi]
  norm_num

/-- Counterexample for C5: on the 18000/2000 scenario `model_accuracy` returns
90 while (true positives + true negatives) / total is 9/10, so the function
does not return `(tp + tn) / total`; it returns that ratio times 100. -/
theorem model_accuracy_not_plain_ratio :
    model_accuracy allSpamModel scenarioBigDf = 90 ∧
      (((confusionTally (scenarioBigDf.map Prod.fst)
          (scenarioBigDf.map fun r => allSpamModel r.2) "spam").1 : ℚ) +
        ((confusionTally (scenarioBigDf.map Prod.fst)
          (scenarioBigDf.map fun r => allSpamModel r.2) "spam").2.2.2 : ℚ)) /
        ((scenarioBigDf.length : ℕ) : ℚ) = 9 / 10 ∧
      (90 : ℚ) ≠ 9 / 10 := by
  refine ⟨model_accuracy_scenario_value, ?_, by norm_num⟩
  rw [confusionTally]
  simp only [List.zip_map', List.countP_map]
  rw [scenarioBigDf]
  simp only [List.countP_append, List.countP_replicate, List.length_append,
    List.length_replicate, Function.comp]
  have hne : ¬ ("legitimate" = "spam") := by decide
  norm_num [allSpamModel, hne]

/-- C5 (amended): for binary-labeled data (labels and predictions all equal to
the positive label or to one other label), `model_accuracy` returns the
percentage `(tp + tn) / total * 100`, and 100 when the total is zero; on the
18000-spam/2000-legitimate scenario with the all-spam classifier it
returns 90. -/
theorem model_accuracy_is_percentage :
    (∀ (predict : String → String) (df : List (String × String)) (pos neg : String),
      pos ≠ neg →
      (∀ r ∈ df, (r.1 = pos ∨ r.1 = neg) ∧ (predict r.2 = pos ∨ predict r.2 = neg)) →
      model_accuracy predict df =
        if df.length = 0 then 100
        else (((confusionTally (df.map Prod.fst) (df.map fun r => predict r.2) pos).1 : ℚ) +
          ((confusionTally (df.map Prod.fst) (df.map fun r => predict r.2) pos).2.2.2 : ℚ)) /
          (df.length : ℚ) * 100) ∧
    model_accuracy allSpamModel scenarioBigDf = 90 := by
  refine ⟨fun predict df pos neg hpn hbin => ?_, model_accuracy_scenario_value⟩
  have hsum := countP_add_countP_not (fun r => r.1 == predict r.2) df
  have hsplit := countP_correct_split predict pos neg hpn df hbin
  rw [model_accuracy, confusionTally]
  simp only [List.zip_map', List.countP_map, Function.comp_def]
  rw [hsum, hsplit]
  split <;> push_cast <;> ring

/-- A two-row binary-labeled frame for the C5 witness. -/
def scenarioSmallDf : List (String × String) :=
  [("spam", "buy pills"), ("legitimate", "dinner at eight")]

/-- Witness for C5 on a concrete two-row frame. -/
theorem model_accuracy_is_percentage_witness :
    model_accuracy allSpamModel scenarioSmallDf =
      if scenarioSmallDf.length = 0 then 100
      else (((confusionTally (scenarioSmallDf.map Prod.fst)
          (scenarioSmallDf.map fun r => allSpamModel r.2) "spam").1 : ℚ) +
        ((confusionTally (scenarioSmallDf.map Prod.fst)
          (scenarioSmallDf.map fun r => allSpamModel r.2) "spam").2.2.2 : ℚ)) /
        (scenarioSmallDf.length : ℚ) * 100 :=
  model_accuracy_is_percentage.1 allSpamModel scenarioSmallDf "spam" "legitimate"
    (by decide) (by decide)

/-- The memorization classifier's state: one set of text-hash values per
class, as mutated by `OverfittingSpamModel.fit`. -/
structure OverfittingSpamModel where
  legit : Finset ℤ
  spam : Finset ℤ

/-- One iteration of the `fit` loop of `OverfittingSpamModel`: add the hash of
the row's text to the set matching the row's label. -/
def OverfittingSpamModel.fitStep (h : String → ℤ) (m : OverfittingSpamModel)
    (tup : String × String) : OverfittingSpamModel :=
  if tup.1 = "legitimate" then { m with legit := insert (h tup.2) m.legit }
  else { m with spam := insert (h tup.2) m.spam }

/-- `OverfittingSpamModel.fit`: iterate `fitStep` over the dataframe starting
from two empty sets. -/
def OverfittingSpamModel.fit (h : String → ℤ)
    (df : List (String × String)) : OverfittingSpamModel :=
  df.foldl (OverfittingSpamModel.fitStep h) ⟨∅, ∅⟩

/-- `OverfittingSpamModel.predict`: exact-hash lookup in the legitimate set,
then the spam set, then the parity fallback
`(len(text) % 2 == 0) and "legitimate" or "spam"`. -/
def OverfittingSpamModel.predict (m : OverfittingSpamModel) (h : String → ℤ)
    (text : String) : String :=
  if h text ∈ m.legit then "legitimate"
  else if h text ∈ m.spam then "spam"
  else if text.length % 2 = 0 then "legitimate" else "spam"

/-- The `fit` loop only ever grows the two sets by the hashes of the
matching-label rows. -/
theorem osm_fit_aux (h : String → ℤ) (df : List (String × String)) :
    ∀ m : OverfittingSpamModel,
      (df.foldl (OverfittingSpamModel.fitStep h) m).legit
          = m.legit ∪ ((df.filter fun t => t.1 == "legitimate").map fun t => h t.2).toFinset ∧
      (df.foldl (OverfittingSpamModel.fitStep h) m).spam
          = m.spam ∪ ((df.filter fun t => !(t.1 == "legitimate")).map fun t => h t.2).toFinset := by
  induction df with
  | nil => intro m; simp
  | cons t rest ih =>
      intro m
      rcases ih (OverfittingSpamModel.fitStep h m t) with ⟨hl, hs⟩
      rw [List.foldl_cons]
      by_cases ht : t.1 = "legitimate"
      · constructor
        · rw [hl]
          simp [OverfittingSpamModel.fitStep, ht, List.filter_cons, Finset.insert_union,
            Finset.union_insert]
        · rw [hs]
          simp [OverfittingSpamModel.fitStep, ht, List.filter_cons]
      · constructor
        · rw [hl]
          simp [OverfittingSpamModel.fitStep, ht, List.filter_cons]
        · rw [hs]
          simp [OverfittingSpamModel.fitStep, ht, List.filter_cons, Finset.insert_union,
            Finset.union_insert]

/-- C7: after `fit`, the legitimate set holds exactly the hashes of the
legitimate-labeled training texts and the spam set those of the other rows;
`predict` returns "legitimate" on a legitimate-set hit, otherwise "spam" on a
spam-set hit, and otherwise falls back to character-count parity, answering
"legitimate" exactly on even length and "spam" exactly on odd length. -/
theorem overfitting_fit_predict (h : String → ℤ) (df : List (String × String))
    (text : String) :
    ((OverfittingSpamModel.fit h df).legit
        = ((df.filter fun t => t.1 == "legitimate").map fun t => h t.2).toFinset) ∧
    ((OverfittingSpamModel.fit h df).spam
        = ((df.filter fun t => !(t.1 == "legitimate")).map fun t => h t.2).toFinset) ∧
    (h text ∈ (OverfittingSpamModel.fit h df).legit →
      (OverfittingSpamModel.fit h df).predict h text = "legitimate") ∧
    (h text ∉ (OverfittingSpamModel.fit h df).legit →
      h text ∈ (OverfittingSpamModel.fit h df).spam →
      (OverfittingSpamModel.fit h df).predict h text = "spam") ∧
    (h text ∉ (OverfittingSpamModel.fit h df).legit →
      h text ∉ (OverfittingSpamModel.fit h df).spam →
      ((OverfittingSpamModel.fit h df).predict h text = "legitimate"
          ↔ text.length % 2 = 0) ∧
      ((OverfittingSpamModel.fit h df).predict h text = "spam"
          ↔ ¬ text.length % 2 = 0)) := by
  obtain ⟨hl, hs⟩ := osm_fit_aux h df ⟨∅, ∅⟩
  refine ⟨by simpa [OverfittingSpamModel.fit] using hl,
    by simpa [OverfittingSpamModel.fit] using hs, ?_, ?_, ?_⟩
  · intro hmem
    rw [OverfittingSpamModel.predict, if_pos hmem]
  · intro hnl hmem
    rw [OverfittingSpamModel.predict, if_neg hnl, if_pos hmem]
  · intro hnl hns
    rw [OverfittingSpamModel.predict, if_neg hnl, if_neg hns]
    by_cases hp : text.length % 2 = 0 <;> simp [hp]

/-- A concrete stand-in for Python's `hash` in witnesses: the character count. -/
def lengthHash : String → ℤ := fun s => (s.length : ℤ)

/-- Witness for C7: a memorized legitimate text is predicted "legitimate". -/
theorem overfitting_fit_predict_witness :
    (OverfittingSpamModel.fit lengthHash
      [("legitimate", "ab"), ("spam", "abcd")]).predict lengthHash "ab" = "legitimate" :=
  (overfitting_fit_predict lengthHash [("legitimate", "ab"), ("spam", "abcd")] "ab").2.2.1
    (by decide)

/-- One character of Python's `\w` class (ASCII range): letters, digits and
underscore. -/
def isWordChar (c : Char) : Bool := c.isAlphanum || c == '_'

/-- Worker for `tokenize`: walk the characters, growing the current piece on a
word character, and on a run of non-word characters emit the piece once and
skip the rest of the run, as `re.split(r"\W+", text)` does (leading and
trailing empty pieces included). -/
def reSplitGo (cs : List Char) (acc : List Char) (skipping : Bool) : List String :=
  match cs with
  | [] => [String.mk acc.reverse]
  | c :: rest =>
    if isWordChar c then reSplitGo rest (c :: acc) false
    else if skipping then reSplitGo rest [] true
    else String.mk acc.reverse :: reSplitGo rest [] true

/-- `re.split(r"\W+", text)` over the ASCII word-character class. -/
def tokenize (s : String) : List String := reSplitGo s.data [] false

/-- Python's `str.lower()` (characterwise lowercasing). -/
def pyLower (s : String) : String := String.mk (s.data.map Char.toLower)

/-- Worker for `keysOf`: keep the first occurrence of each string, in order,
as the key view of a Python dict filled by insertion. -/
def keysOfGo : List String → List String → List String
  | [], _ => []
  | w :: ws, seen => if w ∈ seen then keysOfGo ws seen else w :: keysOfGo ws (w :: seen)

/-- The keys of a counting dict filled from `l` in order: first occurrences. -/
def keysOf (l : List String) : List String := keysOfGo l []

/-- Stable insertion of a (word, count) pair into a descending-by-count list:
the pair goes after every earlier pair with a greater-or-equal count, which is
exactly where Python's stable `sorted(..., key=kv[1], reverse=True)` puts it. -/
def insertDesc (kv : String × ℕ) : List (String × ℕ) → List (String × ℕ)
  | [] => [kv]
  | x :: xs => if x.2 ≥ kv.2 then x :: insertDesc kv xs else kv :: x :: xs

/-- Stable descending-by-count sort, the result of
`sorted(items, key=lambda kv: kv[1], reverse=True)`. -/
def sortDesc (l : List (String × ℕ)) : List (String × ℕ) :=
  l.foldl (fun acc kv => insertDesc kv acc) []

/-- The frequency-biased classifier's state: one vocabulary per class, as
produced by `SensitiveSpamModel.fit`. -/
structure SensitiveSpamModel where
  legit : Finset String
  spam : Finset String

/-- The stream of normalized tokens contributed to one class's counting dict
by `SensitiveSpamModel.fit`: rows of that class in order, each tokenized by
`re.split(r"\W+", ...)`, empty tokens dropped, each token lowercased. -/
def classTokens (df : List (String × String)) (wantLegit : Bool) : List String :=
  ((df.filter fun tup => (tup.1 == "legitimate") == wantLegit).map
    fun tup => ((tokenize tup.2).filter fun w => w.length > 0).map pyLower).flatten

/-- The (word, count) items of one class's counting dict, in insertion order. -/
def classItems (toks : List String) : List (String × ℕ) :=
  (keysOf toks).map fun w => (w, toks.count w)

/-- `SensitiveSpamModel.fit`: accumulate per-class word counts, delete words
common to both classes from both dicts, sort each dict's items by count
descending, and keep the top 100 legitimate and top 1000 spam words. -/
def SensitiveSpamModel.fit (df : List (String × String)) : SensitiveSpamModel :=
  let legitToks := classTokens df true
  let spamToks := classTokens df false
  let legit_words := classItems legitToks
  let spam_words := classItems spamToks
  let legitKeys := keysOf legitToks
  let spamKeys := keysOf spamToks
  let legit_remaining := legit_words.filter fun kv => !(spamKeys.contains kv.1)
  let spam_remaining := spam_words.filter fun kv => !(legitKeys.contains kv.1)
  let top_legit_words := sortDesc legit_remaining
  let top_spam_words := sortDesc spam_remaining
  { legit := ((top_legit_words.take 100).map Prod.fst).toFinset,
    spam := ((top_spam_words.take 1000).map Prod.fst).toFinset }

/-- `SensitiveSpamModel.predict`: tokenize the input with the same
`re.split(r"\W+", ...)`, score a point per vocabulary hit, and answer
`(legit_score > spam_score) and "legitimate" or "spam"`.  The source computes
`w = word.lower()` in the loop but then tests the raw `word` against both
vocabularies, leaving the lowercased copy unused; this embedding reproduces
that lookup on the raw `word`. -/
def SensitiveSpamModel.predict (m : SensitiveSpamModel) (text : String) : String :=
  let scores := (tokenize text).foldl
    (fun (s : ℕ × ℕ) word =>
      if word ∈ m.legit then (s.1 + 1, s.2)
      else if word ∈ m.spam then (s.1, s.2 + 1)
      else s)
    (0, 0)
  if scores.1 > scores.2 then "legitimate" else "spam"

/-- Membership in a stable insertion is membership in the parts. -/
theorem mem_insertDesc (kv x : String × ℕ) (l : List (String × ℕ)) :
    x ∈ insertDesc kv l ↔ x = kv ∨ x ∈ l := by
  induction l with
  | nil => simp [insertDesc]
  | cons y ys ih => by_cases h : y.2 ≥ kv.2 <;> simp [insertDesc, h, ih] <;> tauto

/-- Membership passes through the fold that builds the stable sort. -/
theorem mem_sortDesc_foldl (l : List (String × ℕ)) :
    ∀ (acc : List (String × ℕ)) (x : String × ℕ),
      x ∈ l.foldl (fun a kv => insertDesc kv a) acc ↔ x ∈ l ∨ x ∈ acc := by
  induction l with
  | nil => simp
  | cons kv t ih =>
      intro acc x
      simp only [List.foldl_cons, ih, mem_insertDesc, List.mem_cons]
      tauto

/-- The stable sort permutes its input, so membership is unchanged. -/
theorem mem_sortDesc (l : List (String × ℕ)) (x : String × ℕ) :
    x ∈ sortDesc l ↔ x ∈ l := by
  simp [sortDesc, mem_sortDesc_foldl]

/-- Every dict item's word is one of the dict's keys. -/
theorem mem_classItems (toks : List String) (kv : String × ℕ)
    (h : kv ∈ classItems toks) : kv.1 ∈ keysOf toks := by
  simp only [classItems, List.mem_map] at h
  obtain ⟨w, hw, rfl⟩ := h
  exact hw

/-- C9: after `SensitiveSpamModel.fit` on any training set the two
vocabularies are disjoint (words common to both classes were removed from
both), the legitimate vocabulary has at most 100 words and the spam
vocabulary at most 1000; `predict` is a pure function of this state, so the
sets are read-only thereafter. -/
theorem sensitive_fit_invariants (df : List (String × String)) :
    (∀ w ∈ (SensitiveSpamModel.fit df).legit, w ∉ (SensitiveSpamModel.fit df).spam) ∧
      (SensitiveSpamModel.fit df).legit.card ≤ 100 ∧
      (SensitiveSpamModel.fit df).spam.card ≤ 1000 := by
  simp only [SensitiveSpamModel.fit]
  refine ⟨?_, ?_, ?_⟩
  · intro w hw hspam
    simp only [List.mem_toFinset, List.mem_map] at hw hspam
    obtain ⟨kv, hkv, rfl⟩ := hw
    obtain ⟨kv', hkv', hfst⟩ := hspam
    have h1 : kv ∈ sortDesc ((classItems (classTokens df true)).filter
        fun kv => !((keysOf (classTokens df false)).contains kv.1)) :=
      List.mem_of_mem_take hkv
    have h2 : kv' ∈ sortDesc ((classItems (classTokens df false)).filter
        fun kv => !((keysOf (classTokens df true)).contains kv.1)) :=
      List.mem_of_mem_take hkv'
    rw [mem_sortDesc] at h1 h2
    rw [List.mem_filter] at h1 h2
    have h3 : kv'.1 ∈ keysOf (classTokens df false) := mem_classItems _ _ h2.1
    have h4 := h1.2
    rw [hfst] at h3
    rw [Bool.not_eq_true'] at h4
    have h5 : (keysOf (classTokens df false)).contains kv.1 = true :=
      List.elem_eq_true_of_mem h3
    rw [h5] at h4
    cases h4
  · calc (((sortDesc _).take 100).map Prod.fst).toFinset.card
        ≤ (((sortDesc _).take 100).map Prod.fst).length := List.toFinset_card_le _
      _ = ((sortDesc _).take 100).length := List.length_map _ _
      _ ≤ 100 := List.length_take_le _ _
  · calc (((sortDesc _).take 1000).map Prod.fst).toFinset.card
        ≤ (((sortDesc _).take 1000).map Prod.fst).length := List.toFinset_card_le _
      _ = ((sortDesc _).take 1000).length := List.length_map _ _
      _ ≤ 1000 := List.length_take_le _ _

/-- Witness for C9 on a concrete two-row training set. -/
theorem sensitive_fit_invariants_witness :
    (∀ w ∈ (SensitiveSpamModel.fit
        [("legitimate", "good dinner"), ("spam", "buy pills")]).legit,
      w ∉ (SensitiveSpamModel.fit
        [("legitimate", "good dinner"), ("spam", "buy pills")]).spam) ∧
      (SensitiveSpamModel.fit
        [("legitimate", "good dinner"), ("spam", "buy pills")]).legit.card ≤ 100 ∧
      (SensitiveSpamModel.fit
        [("legitimate", "good dinner"), ("spam", "buy pills")]).spam.card ≤ 1000 :=
  sensitive_fit_invariants [("legitimate", "good dinner"), ("spam", "buy pills")]

/-- C8 (code bug): the vocabularies store lowercased words and the claim (and
the dead local `w = word.lower()` in the source) call for a lowercased
lookup, but `predict` tests the raw token.  On a model fitted so that
"opossum" is the only legitimate-vocabulary word, the input "Opossum"
lowercases to a stored legitimate word, yet `predict` scores no hit and
answers "spam" instead of "legitimate". -/
theorem sensitive_predict_case_bug :
    (SensitiveSpamModel.fit
      [("legitimate", "opossum opossum"), ("spam", "viagra viagra")]).legit
      = {"opossum"} ∧
    (SensitiveSpamModel.fit
      [("legitimate", "opossum opossum"), ("spam", "viagra viagra")]).spam
      = {"viagra"} ∧
    ((tokenize "Opossum").map pyLower).countP
      (fun w => w ∈ (SensitiveSpamModel.fit
        [("legitimate", "opossum opossum"), ("spam", "viagra viagra")]).legit) = 1 ∧
    ((tokenize "Opossum").map pyLower).countP
      (fun w => w ∈ (SensitiveSpamModel.fit
        [("legitimate", "opossum opossum"), ("spam", "viagra viagra")]).spam) = 0 ∧
    (SensitiveSpamModel.fit
      [("legitimate", "opossum opossum"), ("spam", "viagra viagra")]).predict "Opossum"
      = "spam" := by
  refine ⟨by decide, by decide, by decide, by decide, by decide⟩

/-- A numpy float64 as it occurs in the hashing encoder: a finite value
(exact here, as `ℚ`), or the NaN / infinity that float division by zero
produces.  numpy emits a warning and continues on 0.0/0.0 (NaN) and x/0.0
with x ≠ 0 (infinity); it does not raise. -/
inductive PFloat
  | nan
  | inf
  | val (q : ℚ)
deriving DecidableEq

/-- numpy float division for the nonnegative values the encoder produces:
finite/finite is exact except that 0.0/0.0 is NaN and x/0.0 (x ≠ 0) is
infinity; anything involving a non-finite operand is NaN here (only the
NaN case is reachable in `hf`). -/
def PFloat.div : PFloat → PFloat → PFloat
  | .val a, .val b => if b = 0 then (if a = 0 then .nan else .inf) else .val (a / b)
  | _, _ => .nan

/-- The bucket `h(term) % vecsize` of a term.  Python's `%` on ints with a
positive modulus agrees with `Int.emod`. -/
def bucket (vecsize : ℕ) (h : String → ℤ) (t : String) : ℕ :=
  ((h t) % (vecsize : ℤ)).toNat

/-- The counting loop of `hf`: start from `np.zeros(vecsize)` and add 1.0 to
`result[h(term) % vecsize]` for each term. -/
def rawCounts (vecsize : ℕ) (h : String → ℤ) (words : List String) : List ℚ :=
  words.foldl
    (fun result term =>
      result.set (bucket vecsize h term) (result.getD (bucket vecsize h term) 0 + 1))
    (List.replicate vecsize 0)

/-- The inner function `hf` of `hashing_frequency`, on a token list: count
tokens per bucket, then divide every entry by the total `sum(result)`. -/
def hf (vecsize : ℕ) (h : String → ℤ) (words : List String) : List PFloat :=
  let result := rawCounts vecsize h words
  let total := result.sum
  result.map fun x => PFloat.div (.val x) (.val total)

/-- `hashing_frequency(vecsize, h)` returns the closure `hf`. -/
def hashing_frequency (vecsize : ℕ) (h : String → ℤ) : List String → List PFloat :=
  hf vecsize h

/-- Worker for `pySplitSpace`: split at every single space character,
keeping empty pieces, as Python's `words.split(" ")` does. -/
def pySplitSpaceGo (cs : List Char) (acc : List Char) : List String :=
  match cs with
  | [] => [String.mk acc.reverse]
  | c :: rest =>
    if c == ' ' then String.mk acc.reverse :: pySplitSpaceGo rest []
    else pySplitSpaceGo rest (c :: acc)

/-- Python's `words.split(" ")` with an explicit separator: `"".split(" ")`
is `[""]`, and consecutive spaces yield empty pieces. -/
def pySplitSpace (s : String) : List String := pySplitSpaceGo s.data []

/-- `hf` applied to a string argument: the source's
`if type(words) is type(""): words = words.split(" ")` branch. -/
def hfString (vecsize : ℕ) (h : String → ℤ) (s : String) : List PFloat :=
  hf vecsize h (pySplitSpace s)

/-- Every bucket index is in range when the vector size is positive. -/
theorem bucket_lt (vecsize : ℕ) (h : String → ℤ) (t : String) (hN : 0 < vecsize) :
    bucket vecsize h t < vecsize := by
  rw [bucket]
  have hz : (vecsize : ℤ) ≠ 0 := by exact_mod_cast hN.ne'
  have h1 : (0:ℤ) ≤ h t % (vecsize : ℤ) := Int.emod_nonneg _ hz
  have h2 : h t % (vecsize : ℤ) < (vecsize : ℤ) :=
    Int.emod_lt_of_pos _ (by exact_mod_cast hN)
  omega

/-- Setting an index leaves the other entries' `getD` views unchanged. -/
theorem getD_set_ne (l : List ℚ) (i j : ℕ) (b : ℚ) (h : j ≠ i) :
    (l.set j b).getD i 0 = l.getD i 0 := by
  simp [List.getD_eq_getElem?_getD, List.getElem?_set, h]

/-- Setting an in-range index updates its `getD` view. -/
theorem getD_set_eq (l : List ℚ) (i : ℕ) (b : ℚ) (h : i < l.length) :
    (l.set i b).getD i 0 = b := by
  simp [List.getD_eq_getElem?_getD, List.getElem?_set, h]

/-- Adding `a` at one in-range entry adds `a` to the sum. -/
theorem sum_set_getD_add (l : List ℚ) (a : ℚ) :
    ∀ i, i < l.length → (l.set i (l.getD i 0 + a)).sum = l.sum + a := by
  induction l with
  | nil => intro i hi; cases hi
  | cons x xs ih =>
      intro i hi
      cases i with
      | zero => simp [List.set]; ring
      | succ n =>
          have hn : n < xs.length := by simpa using hi
          rw [List.getD_cons_succ]
          show (x :: xs.set n (xs.getD n 0 + a)).sum = (x :: xs).sum + a
          rw [List.sum_cons, List.sum_cons, ih n hn]
          ring

/-- The counting loop preserves the vector length, adds one unit per token to
the sum, and ends with entry `i` grown by the number of tokens bucketed to
`i`. -/
theorem rawCounts_aux (vecsize : ℕ) (h : String → ℤ) (hN : 0 < vecsize) :
    ∀ (ws : List String) (init : List ℚ), init.length = vecsize →
      (ws.foldl
        (fun result term =>
          result.set (bucket vecsize h term) (result.getD (bucket vecsize h term) 0 + 1))
        init).length = vecsize ∧
      (ws.foldl
        (fun result term =>
          result.set (bucket vecsize h term) (result.getD (bucket vecsize h term) 0 + 1))
        init).sum = init.sum + (ws.length : ℚ) ∧
      ∀ i, i < vecsize →
        (ws.foldl
          (fun result term =>
            result.set (bucket vecsize h term) (result.getD (bucket vecsize h term) 0 + 1))
          init).getD i 0
          = init.getD i 0 + (ws.countP (fun t => bucket vecsize h t == i) : ℚ) := by
  intro ws
  induction ws with
  | nil => intro init hlen; simp [hlen]
  | cons t ws' ih =>
      intro init hlen
      have hb : bucket vecsize h t < init.length := by rw [hlen]; exact bucket_lt _ _ _ hN
      have hstep : (init.set (bucket vecsize h t)
          (init.getD (bucket vecsize h t) 0 + 1)).length = vecsize := by
        rw [List.length_set, hlen]
      obtain ⟨ihl, ihs, ihd⟩ := ih _ hstep
      rw [List.foldl_cons]
      refine ⟨ihl, ?_, ?_⟩
      · rw [ihs, sum_set_getD_add _ _ _ hb, List.length_cons]
        push_cast
        ring
      · intro i hi
        rw [ihd i hi, List.countP_cons]
        by_cases hbi : bucket vecsize h t = i
        · rw [hbi, getD_set_eq _ _ _ (hbi ▸ hb)]
          simp [hbi]
          ring
        · rw [getD_set_ne _ _ _ _ hbi]
          simp [hbi]

/-- The count vector has exactly `vecsize` entries. -/
theorem rawCounts_length (vecsize : ℕ) (h : String → ℤ) (ws : List String)
    (hN : 0 < vecsize) : (rawCounts vecsize h ws).length = vecsize := by
  rw [rawCounts]
  exact (rawCounts_aux vecsize h hN ws (List.replicate vecsize 0) (by simp)).1

/-- The counts sum to the token count. -/
theorem rawCounts_sum (vecsize : ℕ) (h : String → ℤ) (ws : List String)
    (hN : 0 < vecsize) : (rawCounts vecsize h ws).sum = (ws.length : ℚ) := by
  rw [rawCounts]
  have := (rawCounts_aux vecsize h hN ws (List.replicate vecsize 0) (by simp)).2.1
  simpa using this

/-- Entry `i` of the count vector counts the tokens bucketed to `i`. -/
theorem rawCounts_getD (vecsize : ℕ) (h : String → ℤ) (ws : List String)
    (hN : 0 < vecsize) (i : ℕ) (hi : i < vecsize) :
    (rawCounts vecsize h ws).getD i 0
      = (ws.countP (fun t => bucket vecsize h t == i) : ℚ) := by
  rw [rawCounts]
  have := (rawCounts_aux vecsize h hN ws (List.replicate vecsize 0) (by simp)).2.2 i hi
  rw [this]
  have hrep : (List.replicate vecsize (0:ℚ)).getD i 0 = 0 := by
    simp [List.getD_eq_getElem?_getD, List.getElem?_replicate, hi]
  rw [hrep, zero_add]

/-- Dividing every entry divides the sum. -/
theorem sum_map_div (l : List ℚ) (c : ℚ) : (l.map fun x => x / c).sum = l.sum / c := by
  induction l with
  | nil => simp
  | cons x xs ih => simp [ih, add_div]

/-- C1: on every non-empty token sequence and positive vector size, the
encoder returns a vector of `vecsize` finite entries, all nonnegative,
summing to 1, whose entry `i` is (number of tokens `t` with
`h t % vecsize = i`) divided by the total token count. -/
theorem hashing_frequency_normalized (words : List String) (vecsize : ℕ)
    (h : String → ℤ) (hw : words ≠ []) (hN : 0 < vecsize) :
    ∃ qs : List ℚ,
      hashing_frequency vecsize h words = qs.map PFloat.val ∧
      qs.length = vecsize ∧
      (∀ q ∈ qs, 0 ≤ q) ∧
      qs.sum = 1 ∧
      ∀ i, i < vecsize → qs.getD i 0
        = (words.countP (fun t => bucket vecsize h t == i) : ℚ) / (words.length : ℚ) := by
  have hlen0 : words.length ≠ 0 := fun hc => hw (List.length_eq_zero.mp hc)
  have htot : (rawCounts vecsize h words).sum ≠ 0 := by
    rw [rawCounts_sum vecsize h words hN]
    exact_mod_cast hlen0
  refine ⟨(rawCounts vecsize h words).map fun x => x / (rawCounts vecsize h words).sum,
    ?_, ?_, ?_, ?_, ?_⟩
  · rw [hashing_frequency, hf, List.map_map]
    apply List.map_congr_left
    intro x _
    simp [Function.comp, PFloat.div, htot]
  · rw [List.length_map, rawCounts_length vecsize h words hN]
  · intro q hq
    rw [List.mem_map] at hq
    obtain ⟨x, hx, rfl⟩ := hq
    have hx0 : 0 ≤ x := by
      rw [List.mem_iff_getElem] at hx
      obtain ⟨i, hi, rfl⟩ := hx
      have hiv : i < vecsize := by
        rw [rawCounts_length vecsize h words hN] at hi
        exact hi
      rw [← List.getD_eq_getElem (rawCounts vecsize h words) 0 hi]
      rw [rawCounts_getD vecsize h words hN i hiv]
      positivity
    have ht0 : 0 ≤ (rawCounts vecsize h words).sum := by
      rw [rawCounts_sum vecsize h words hN]
      positivity
    exact div_nonneg hx0 ht0
  · rw [sum_map_div, div_self htot]
  · intro i hi
    have hil : i < (rawCounts vecsize h words).length := by
      rw [rawCounts_length vecsize h words hN]
      exact hi
    rw [List.getD_eq_getElem _ 0 (by simpa using hil), List.getElem_map,
      ← List.getD_eq_getElem (rawCounts vecsize h words) 0 hil,
      rawCounts_getD vecsize h words hN i hi, rawCounts_sum vecsize h words hN]

/-- Witness for C1: the four-token scenario of the spec at vector size 8. -/
theorem hashing_frequency_normalized_witness :
    ∃ qs : List ℚ,
      hashing_frequency 8 lengthHash ["the", "quick", "brown", "fox"] = qs.map PFloat.val ∧
      qs.length = 8 ∧
      (∀ q ∈ qs, 0 ≤ q) ∧
      qs.sum = 1 ∧
      ∀ i, i < 8 → qs.getD i 0
        = ((["the", "quick", "brown", "fox"].countP
            (fun t => bucket 8 lengthHash t == i)) : ℚ) /
          ((["the", "quick", "brown", "fox"].length : ℕ) : ℚ) :=
  hashing_frequency_normalized ["the", "quick", "brown", "fox"] 8 lengthHash
    (by decide) (by decide)

/-- C2 (amended): on the empty token sequence every bucket count and the
total are zero, so the normalization computes 0.0/0.0 in every entry; numpy
masks this division by zero into NaN, and the call returns a length-`vecsize`
all-NaN vector instead of failing. -/
theorem hf_empty_tokens_all_nan (vecsize : ℕ) (h : String → ℤ) :
    hf vecsize h [] = List.replicate vecsize PFloat.nan := by
  rw [hf]
  have h0 : rawCounts vecsize h [] = List.replicate vecsize 0 := by rw [rawCounts]; rfl
  rw [h0]
  simp [PFloat.div, List.map_replicate]

/-- Counterexample for C2: at vector size 4 the encoder applied to the empty
token sequence returns a well-defined all-NaN vector — the division by zero
is masked, the call does not fail. -/
theorem hashing_frequency_empty_nan_vector :
    hashing_frequency 4 lengthHash [] = List.replicate 4 PFloat.nan := by
  rw [hashing_frequency, hf]
  have h0 : rawCounts 4 lengthHash [] = List.replicate 4 0 := by rw [rawCounts]; rfl
  rw [h0]
  simp [PFloat.div, List.map_replicate]

/-- C10: a string input is split on single spaces, the empty string yielding
the one-token list `[""]`; the empty document therefore produces a
well-defined vector carrying 1.0 in bucket `h("") % vecsize` and 0.0
elsewhere — no entry is NaN and the empty-sequence division by zero is never
reached. -/
theorem hfString_empty_string (vecsize : ℕ) (h : String → ℤ) (hN : 0 < vecsize) :
    pySplitSpace "" = [""] ∧
    (hfString vecsize h "").length = vecsize ∧
    ∀ i, i < vecsize → (hfString vecsize h "").getD i PFloat.nan
      = PFloat.val (if i = bucket vecsize h "" then 1 else 0) := by
  have hsplit : pySplitSpace "" = [""] := by decide
  refine ⟨hsplit, ?_, ?_⟩
  · rw [hfString, hsplit, hf, List.length_map]
    exact rawCounts_length vecsize h [""] hN
  · intro i hi
    rw [hfString, hsplit, hf]
    have hil : i < (rawCounts vecsize h [""]).length := by
      rw [rawCounts_length vecsize h [""] hN]
      exact hi
    rw [List.getD_eq_getElem _ _ (by simpa using hil), List.getElem_map,
      ← List.getD_eq_getElem (rawCounts vecsize h [""]) 0 hil,
      rawCounts_getD vecsize h [""] hN i hi, rawCounts_sum vecsize h [""] hN]
    by_cases hbi : bucket vecsize h "" = i
    · simp [PFloat.div, List.countP_cons, hbi]
    · have hbi' : ¬(i = bucket vecsize h "") := fun hc => hbi hc.symm
      simp [PFloat.div, List.countP_cons, hbi, hbi']

/-- Witness for C10 at vector size 4. -/
theorem hfString_empty_string_witness :
    pySplitSpace "" = [""] ∧
    (hfString 4 lengthHash "").length = 4 ∧
    ∀ i, i < 4 → (hfString 4 lengthHash "").getD i PFloat.nan
      = PFloat.val (if i = bucket 4 lengthHash "" then 1 else 0) :=
  hfString_empty_string 4 lengthHash (by decide)
